import Mathlib

/-
  Verification development for the pysequencer repository.

  Shallow embedding of:
    - src/pysequencer/core/node_caches.py      (regex docstring scraping, caches, singletons)
    - src/pysequencer/core/nodes/node_base.py  (attribute delegation proxy)
    - src/pysequencer/core/nodes/sequence.py   (camera import orchestration)

  Host (engine) behaviour is abstracted by explicit parameters; every host call
  performed by the code is either recorded as an event or modelled by a
  host-supplied function.  Stateful Python objects become explicit state
  records; a Python `raise` becomes an `Except` error value; Python `None`
  becomes `Option.none`.
-/

namespace PySequencer

/- ## The regular expressions of node_caches.py

The three patterns handed to `find_groups` are sequences of literal pieces and
named greedy one-or-more character classes; the editor-property pattern ends in
a re.MULTILINE `$`.  The small engine below implements exactly those constructs
with Python's leftmost, greedy, backtracking semantics. -/

/-- One pattern component: a literal run of characters, a named group
`(?P<g>[cls]+)`, or the multiline anchor `$`. -/
inductive Tok where
  | lit (cs : List Char)
  | grp (gname : String) (cls : Char → Bool)
  | lineEnd

/-- Length of the maximal prefix of the input whose characters satisfy `cls`. -/
def maxRun (cls : Char → Bool) : List Char → Nat
  | [] => 0
  | c :: rest => if cls c then maxRun cls rest + 1 else 0

/-- The list `[n, n-1, ..., 1]`: the candidate lengths of a greedy `+`,
longest first. -/
def descList : Nat → List Nat
  | 0 => []
  | n + 1 => (n + 1) :: descList n

/-- Match a token sequence at the start of `s` (Python `re` semantics: greedy
groups with full backtracking; `$` matches at the end of the input or before a
newline under re.MULTILINE).  Returns the named captures in pattern order and
the remaining input after the match. -/
def matchToks : List Tok → List Char → Option (List (String × String) × List Char)
  | [], s => some ([], s)
  | .lit l :: ts, s => if l.isPrefixOf s then matchToks ts (s.drop l.length) else none
  | .lineEnd :: ts, s =>
    match s with
    | [] => matchToks ts []
    | c :: r => if c = '\n' then matchToks ts (c :: r) else none
  | .grp g cls :: ts, s =>
    (descList (maxRun cls s)).findSome? fun k =>
      match matchToks ts (s.drop k) with
      | some (gs, r) => some ((g, String.mk (s.take k)) :: gs, r)
      | none => none

/-- `re.finditer`: scan left to right, emit each leftmost non-overlapping
match, continue at its end (CPython advances one position past a zero-width
match; the patterns of node_caches.py can never match the empty string).  The
fuel is the input length, which bounds the number of scan steps; the position
one past the end of the input is never tried, where none of the three patterns
could match. -/
def scanF : Nat → List Tok → List Char → List (List (String × String))
  | 0, _, _ => []
  | _, _, [] => []
  | n + 1, ts, c :: rest =>
    match matchToks ts (c :: rest) with
    | some (g, r) => g :: scanF n ts (if r.length ≤ rest.length then r else rest)
    | none => scanF n ts rest

/-- node_caches.find_groups: the groupdicts of all matches, in match order. -/
def findGroups (ts : List Tok) (s : List Char) : List (List (String × String)) :=
  scanF s.length ts s

/-- Lookup in a groupdict (all groups of the patterns always participate, so
the default is never observed on an actual match). -/
def aGet : List (String × String) → String → String
  | [], _ => ""
  | (k, v) :: rest, key => if k = key then v else aGet rest key

/- ### Character classes (ASCII fragment of Python's `\w`; host identifiers and
docstrings are ASCII) -/

def isWordChar (c : Char) : Bool := c.isAlphanum || c = '_'

/-- the apostrophe character, as it appears in the `des` classes -/
def apoChar : Char := Char.ofNat 39

/-- `[\w()]` -/
def ptypeCls (c : Char) : Bool := isWordChar c || c = '(' || c = ')'

/-- `[\w-]` -/
def permCls (c : Char) : Bool := isWordChar c || c = '-'

/-- `[\w ,'().\n\r-]` -/
def desCls (c : Char) : Bool :=
  isWordChar c || c = ' ' || c = ',' || c = apoChar || c = '(' || c = ')' ||
    c = '.' || c = '\n' || c = '\r' || c = '-'

/-- `[\w ,'().\n\r\/:-]` -/
def desClsC (c : Char) : Bool := desCls c || c = '/' || c = ':'

/-- `[\w.]` -/
def valueCls (c : Char) : Bool := isWordChar c || c = '.'

/-- NodeCache.editor_properties pattern:
`- ``(?P<name>\w+)`` \((?P<property_type>[\w()]+)\):  \[(?P<permission>[\w-]+)\] (?P<des>[\w ,'().\n\r-]+)$` -/
def editorPat : List Tok :=
  [.lit "- ``".data, .grp "name" isWordChar, .lit "`` (".data,
   .grp "property_type" ptypeCls, .lit "):  [".data, .grp "permission" permCls,
   .lit "] ".data, .grp "des" desCls, .lineEnd]

/-- NodeCache.class_properties pattern:
`\((?P<property_type>\w+)\):  \[(?P<permission>[\w-]+)\] (?P<des>[\w ,'().\n\r\/:-]+)` -/
def classPat : List Tok :=
  [.lit "(".data, .grp "property_type" isWordChar, .lit "):  [".data,
   .grp "permission" permCls, .lit "] ".data, .grp "des" desClsC]

/-- NodeCache.source_data pattern:
`- \*\*(?P<name>\w+)\*\*: (?P<value>[\w.]+)` -/
def sourcePat : List Tok :=
  [.lit "- **".data, .grp "name" isWordChar, .lit "**: ".data,
   .grp "value" valueCls]

/- ## node_caches.py: property descriptors and the NodeCache state -/

/-- A Python-level error surfacing from the embedded code. -/
inductive PyErr where
  | typeError
deriving DecidableEq

/-- PropertyCategory(IntEnum): EDITOR = 0, CLASS = 1. -/
inductive PropertyCategory where
  | EDITOR
  | CLASS
deriving DecidableEq

/-- NodeCacheEditorProperty: the captured fields of one editor-property bullet.
`property_type` keeps the captured type string (the PropertyType wrapper adds
no data of its own); the `parent` back reference and the fixed EDITOR category
tag carry no information and are omitted. -/
structure NodeCacheEditorProperty where
  name : String
  property_type : String
  permission : String
  des : String
deriving DecidableEq

/-- NodeCacheClassProperty: as above, scraped from a getset descriptor's
docstring, named after the attribute. -/
structure NodeCacheClassProperty where
  name : String
  property_type : String
  permission : String
  des : String
deriving DecidableEq

/-- One attribute of the host class, as seen through `dir`/`getattr`:
its name, whether it is a `getset_descriptor`, and its `__doc__`. -/
structure HostAttr where
  aname : String
  isGetset : Bool
  adoc : String
deriving DecidableEq

/-- The host class wrapped by a NodeCache: its `__doc__` and its `dir` listing
(in `dir`'s sorted order). -/
structure HostClass where
  doc : String
  attrs : List HostAttr
deriving DecidableEq

/-- The mutable fields of a NodeCache instance.  Each `Option` field models
one of the `_xxx = None` caches of `__init__`. -/
structure NodeCache where
  node_type : String
  cls : HostClass
  docC : Option String
  sourceDataC : Option (List (String × String))
  editorPropsC : Option (List NodeCacheEditorProperty)
  editorNamesC : Option (List String)
  classPropsC : Option (List NodeCacheClassProperty)
  classNamesC : Option (List String)
deriving DecidableEq

/-- `NodeCache.__init__`: every cache slot starts at None. -/
def NodeCache.init (nt : String) (cls : HostClass) : NodeCache :=
  ⟨nt, cls, none, none, none, none, none, none⟩

/-- NodeCache.doc: memoized `self._node_cls.__doc__`. -/
def docGet (c : NodeCache) : String × NodeCache :=
  match c.docC with
  | none => (c.cls.doc, { c with docC := some c.cls.doc })
  | some d => (d, c)

/-- Python `s.startswith(p)`. -/
def pyStartsWith (s p : String) : Bool := p.data.isPrefixOf s.data

/-- Python dict assignment `result[k] = v`: update in place when the key
exists (keeping its insertion position), append otherwise. -/
def dictSet : List (String × String) → String → String → List (String × String)
  | [], k, v => [(k, v)]
  | (k', v') :: rest, k, v =>
    if k' = k then (k', v) :: rest else (k', v') :: dictSet rest k v

/-- NodeCache.source_data: scrape `- **name**: value` bullets from the class
docstring into a dict; cache only a non-empty result. -/
def sourceData (c : NodeCache) : Option (List (String × String)) × NodeCache :=
  match c.sourceDataC with
  | none =>
    let (d, c1) := docGet c
    let result := (findGroups sourcePat d.data).foldl
      (fun acc g => dictSet acc (aGet g "name") (aGet g "value")) []
    if result.isEmpty then (none, c1)
    else (some result, { c1 with sourceDataC := some result })
  | some v => (some v, c)

/-- Build a NodeCacheEditorProperty from a groupdict (`**group` kwargs). -/
def mkEditorProperty (g : List (String × String)) : NodeCacheEditorProperty :=
  { name := aGet g "name", property_type := aGet g "property_type",
    permission := aGet g "permission", des := aGet g "des" }

/-- NodeCache.editor_properties: scrape the editor bullets from the class
docstring; cache only a non-empty result; return the cached value. -/
def editorProperties (c : NodeCache) :
    Option (List NodeCacheEditorProperty) × NodeCache :=
  match c.editorPropsC with
  | none =>
    let (d, c1) := docGet c
    let result := (findGroups editorPat d.data).map mkEditorProperty
    if result.isEmpty then (none, c1)
    else (some result, { c1 with editorPropsC := some result })
  | some l => (some l, c)

/-- NodeCache.editor_property_names: `[x.name for x in self.editor_properties]`;
iterating a None scrape result raises TypeError. -/
def editorPropertyNames (c : NodeCache) : Except PyErr (List String × NodeCache) :=
  match c.editorNamesC with
  | none =>
    let (ps, c1) := editorProperties c
    match ps with
    | none => .error .typeError
    | some ps =>
      let ns := ps.map (·.name)
      .ok (ns, { c1 with editorNamesC := some ns })
  | some ns => .ok (ns, c)

/-- The scraping loop of NodeCache.class_properties: over `dir(self._node_cls)`,
skipping dunder names and non-getset attributes, scraping each docstring with
the class pattern; the `name`/`parent` keys are injected into each groupdict
before construction.  `result` aliases `self._class_properties` once the
latter is first assigned, so the final cached value is the full list when it
is non-empty. -/
def classPropertiesCompute (cls : HostClass) : List NodeCacheClassProperty :=
  cls.attrs.foldl
    (fun acc a =>
      if pyStartsWith a.aname "__" then acc
      else if !a.isGetset then acc
      else acc ++ (findGroups classPat a.adoc.data).map
        (fun g => { name := a.aname, property_type := aGet g "property_type",
                    permission := aGet g "permission", des := aGet g "des" }))
    []

/-- NodeCache.class_properties.  On the first read the scrape runs, a
non-empty result is cached, and the `return self._class_properties` inside
the `if self._class_properties is None:` branch yields it.  On a later read
the branch is skipped and the property body falls off its end, so Python
returns None. -/
def classProperties (c : NodeCache) :
    Option (List NodeCacheClassProperty) × NodeCache :=
  match c.classPropsC with
  | none =>
    let result := classPropertiesCompute c.cls
    let v := if result.isEmpty then none else some result
    (v, { c with classPropsC := v })
  | some _ => (none, c)

/-- NodeCache.class_property_names: `[x.name for x in self.class_properties]`;
iterating a None value raises TypeError. -/
def classPropertyNames (c : NodeCache) : Except PyErr (List String × NodeCache) :=
  match c.classNamesC with
  | none =>
    let (ps, c1) := classProperties c
    match ps with
    | none => .error .typeError
    | some ps =>
      let ns := ps.map (·.name)
      .ok (ns, { c1 with classNamesC := some ns })
  | some ns => .ok (ns, c)

/-- Python `names.index(name)`: index of the first occurrence. -/
def idxOf (names : List String) (nm : String) : Nat :=
  match names with
  | [] => 0
  | n :: rest => if n = nm then 0 else idxOf rest nm + 1

/-- The possible results of NodeCache.property_by_name: an editor descriptor,
a class descriptor, or Python's implicit None. -/
inductive PropResult where
  | editorP (p : NodeCacheEditorProperty)
  | classP (p : NodeCacheClassProperty)
  | noneV
deriving DecidableEq

/-- NodeCache.property_by_name.  The EDITOR branch reads the
`editor_properties` and `editor_property_names` properties; the CLASS branch
reads the `class_properties` property but then the raw
`self._class_property_names` field.  `name in None` and subscripting None
raise TypeError. -/
def propertyByName (c : NodeCache) (nm : String) (cat : PropertyCategory) :
    Except PyErr (PropResult × NodeCache) :=
  match cat with
  | .EDITOR =>
    let (pool, c1) := editorProperties c
    match editorPropertyNames c1 with
    | .error e => .error e
    | .ok (names, c2) =>
      if names.contains nm then
        match pool with
        | none => .error .typeError
        | some pool =>
          match pool.get? (idxOf names nm) with
          | some p => .ok (.editorP p, c2)
          | none => .error .typeError
      else .ok (.noneV, c2)
  | .CLASS =>
    let (pool, c1) := classProperties c
    match c1.classNamesC with
    | none => .error .typeError
    | some names =>
      if names.contains nm then
        match pool with
        | none => .error .typeError
        | some pool =>
          match pool.get? (idxOf names nm) with
          | some p => .ok (.classP p, c1)
          | none => .error .typeError
      else .ok (.noneV, c1)

/- ### Concrete host classes used as inputs -/

/-- A host class with one editor-property bullet in its docstring and one
getset attribute carrying a class-property docstring. -/
def egClass : HostClass :=
  { doc := "- ``foo`` (int32):  [Read-Write] some description.",
    attrs := [{ aname := "bar", isGetset := true,
                adoc := "(float):  [Read-Write] the bar value" }] }

/-- The NodeCache for `egClass`, fresh from `__init__`. -/
def egCache : NodeCache := NodeCache.init "EgNode" egClass

/-- The class-property descriptor scraped from `egClass`. -/
def egClassProp : NodeCacheClassProperty :=
  { name := "bar", property_type := "float", permission := "Read-Write",
    des := "the bar value" }

/- ## node_caches.py: the singleton metaclasses

Object identity is modelled by an allocation counter: `fresh` is the id the
next `super().__call__` would produce, and a call returns the id of the
instance it hands back.  A cache is an association list from key to id. -/

/-- First value stored under `key`, if any. -/
def alistFind {α : Type} [DecidableEq α] : List (α × Nat) → α → Option Nat
  | [], _ => none
  | (k, v) :: rest, key => if k = key then some v else alistFind rest key

/-- PropertyTypeSingleton.__call__: keyed by the `property_type` argument
(positional, else keyword, else None). -/
def ptCall (cache : List (Option String × Nat)) (pt : Option String) (fresh : Nat) :
    Nat × List (Option String × Nat) × Nat :=
  match alistFind cache pt with
  | some i => (i, cache, fresh)
  | none => (fresh, cache ++ [(pt, fresh)], fresh + 1)

/-- The key of PropertySingleton.__call__:
`f"{id(subject)}_{ins.name}_{ins.category}"` with the category rendered as its
integer value (EDITOR = 0, CLASS = 1). -/
def psKey (sid : Nat) (nm : String) (cat : Nat) : String :=
  toString sid ++ "_" ++ nm ++ "_" ++ toString cat

/-- PropertySingleton.__call__: keyed by subject identity, property name and
property category. -/
def pspCall (cache : List (String × Nat)) (sid : Nat) (nm : String) (cat : Nat)
    (fresh : Nat) : Nat × List (String × Nat) × Nat :=
  match alistFind cache (psKey sid nm cat) with
  | some i => (i, cache, fresh)
  | none => (fresh, cache ++ [(psKey sid nm cat, fresh)], fresh + 1)

/-- NodeCacheSingleton raises NodeCacheError("node_type is missing...") when
the node type is None or the host module lacks (a truthy attribute of) that
name. -/
inductive NodeCacheError where
  | missing
deriving DecidableEq

/-- NodeCacheSingleton.__call__: `node_type` is None or a name; `has` tells
whether the host module owns an attribute of that name (host module attributes
are classes, hence truthy when present).  The existence check runs before the
cache is consulted, so a failing call leaves the cache untouched. -/
def ncCall (has : String → Bool) (cache : List (String × Nat)) (nt : Option String)
    (fresh : Nat) : Except NodeCacheError Nat × List (String × Nat) × Nat :=
  match nt with
  | none => (.error .missing, cache, fresh)
  | some n =>
    if !has n then (.error .missing, cache, fresh)
    else
      match alistFind cache n with
      | some i => (.ok i, cache, fresh)
      | none => (.ok fresh, cache ++ [(n, fresh)], fresh + 1)

/- ## node_caches.py: permission checks of the property set methods -/

/-- Python substring test `needle in hay` on character lists. -/
def isSubstr (needle : List Char) : List Char → Bool
  | [] => needle.isEmpty
  | c :: rest => needle.isPrefixOf (c :: rest) || isSubstr needle rest

/-- Python `a in b` on strings. -/
def pyIn (needle hay : String) : Bool := isSubstr needle.data hay.data

/-- The per-descriptor state that NodeCachePropertyBase.set consults: the
property name and permission string, plus the memoized `_is_write` slot. -/
structure NodeCachePropState where
  pname : String
  permission : String
  isWriteC : Option Bool
deriving DecidableEq

/-- NodeCachePropertyBase.is_write: memoized `"Write" in self.permission`. -/
def isWriteGet (p : NodeCachePropState) : Bool × NodeCachePropState :=
  match p.isWriteC with
  | none =>
    let b := pyIn "Write" p.permission
    (b, { p with isWriteC := some b })
  | some b => (b, p)

/-- A host mutation performed by a set method. -/
inductive HostSetCall where
  | setEditorProperty (pname : String)
  | setAttr (pname : String)
deriving DecidableEq

/-- NodeCacheEditorProperty.set: call the host setter when writable, raise
PropertyError otherwise (the error branch performs no host call). -/
def editorSet (p : NodeCachePropState) :
    Except Unit (List HostSetCall × NodeCachePropState) :=
  let (w, p1) := isWriteGet p
  if w then .ok ([.setEditorProperty p.pname], p1) else .error ()

/-- NodeCacheClassProperty.set: `setattr` when writable, raise PropertyError
otherwise. -/
def classSet (p : NodeCachePropState) :
    Except Unit (List HostSetCall × NodeCachePropState) :=
  let (w, p1) := isWriteGet p
  if w then .ok ([.setAttr p.pname], p1) else .error ()

/- ## node_base.py: attribute lookup on a NodeBase wrapper

`wrapperAttr` resolves the names ordinary attribute lookup finds on the
instance (instance dict, class properties and methods); `nodeAttr` the
attributes of the wrapped host node `self._node`.  `__getattr__` is entered
exactly when ordinary lookup fails; the fuel models CPython's recursion
limit. -/

/-- Outcome of a Python attribute access. -/
inductive LookupResult (α : Type) where
  | found (v : α)
  | attrErr
  | recErr
deriving DecidableEq

/-- NodeBase.__getattr__(self, item).  Its first statement
`ins = getattr(self, item, NodeMissAttr)` performs a full attribute lookup
again, which re-enters `__getattr__` whenever ordinary lookup fails; the
default only absorbs an AttributeError, not a RecursionError. -/
def nbGetattr {α : Type} : Nat → (String → Option α) → (String → Option α) →
    String → LookupResult α
  | 0, _, _, _ => .recErr
  | n + 1, w, na, item =>
    let ins : LookupResult α :=
      match w item with
      | some v => .found v
      | none => nbGetattr n w na item
    match ins with
    | .recErr => .recErr
    | .found v => .found v
    | .attrErr =>
      match na item with
      | some v => .found v
      | none => .attrErr

/-- A full Python attribute access on a NodeBase instance: ordinary lookup,
falling back to `__getattr__`. -/
def nbLookup {α : Type} (fuel : Nat) (w na : String → Option α) (item : String) :
    LookupResult α :=
  match w item with
  | some v => .found v
  | none => nbGetattr fuel w na item

/- ## sequence.py: SequenceCamera keyframe state

A channel is the list of its keyframe frame numbers, in the order `get_keys`
returns them; a camera's host data is the list of all channels reachable from
its binding proxy (children first, then the proxy itself, tracks, sections,
channels — flattened in iteration order).  `kfC`, `startC`, `endC` are the
`_key_frames_data`, `_start`, `_end` caches. -/

structure Camera where
  channels : List (List Int)
  kfC : Option (List (List Int))
  startC : Option Int
  endC : Option Int
deriving DecidableEq

/-- A camera as `SequenceCamera.__init__` leaves it: all caches at None. -/
def Camera.fresh (chs : List (List Int)) : Camera := ⟨chs, none, none, none⟩

/-- One step of the channel loop of `__setup_camera_data`: channels without
keys are skipped; otherwise the channel is recorded and the running minimum
of first keys / maximum of last keys updated. -/
def setupStep (acc : List (List Int) × Option Int × Option Int) (ch : List Int) :
    List (List Int) × Option Int × Option Int :=
  match ch with
  | [] => acc
  | k :: rest =>
    let (kfs, s, e) := acc
    let ke := (k :: rest).getLast (by simp)
    let s' := match s with
      | none => some k
      | some s0 => if s0 > k then some k else some s0
    let e' := match e with
      | none => some ke
      | some e0 => if e0 < ke then some ke else some e0
    (kfs ++ [ch], s', e')

/-- SequenceCamera.__setup_camera_data: rebuild `_key_frames_data`, `_start`
and `_end` from the host channels. -/
def setupData (c : Camera) : Camera :=
  let (kfs, s, e) := c.channels.foldl setupStep ([], none, none)
  { c with kfC := some kfs, startC := s, endC := e }

/-- The SequenceCamera.start property: set up the camera data when `_start`
is None, then return `_start`. -/
def startF (c : Camera) : Option Int × Camera :=
  match c.startC with
  | none =>
    let c1 := setupData c
    (c1.startC, c1)
  | some v => (some v, c)

/-- The SequenceCamera.end property. -/
def endF (c : Camera) : Option Int × Camera :=
  match c.endC with
  | none =>
    let c1 := setupData c
    (c1.endC, c1)
  | some v => (some v, c)

/-- The per-channel key move of `set_start_frame`: every key of a channel
with first key `ch_start` is moved by `(self.start - ch_start) + offset`,
where `offset = start - self.start`; `self.start` is the cached `_start`
(stable over the loop).  Mutating the keys of `_key_frames_data` mutates the
same key objects the host channels hold; channels without keys are absent
from the dict and hold no keys to move, so the whole loop rewrites the host
channels as below. -/
def shiftChannel (s0 s : Int) (ch : List Int) : List Int :=
  ch.map (fun t => t + (s0 - ch.headI) + (s - s0))

/-- SequenceCamera.set_start_frame: `offset = start - self.start` raises
TypeError when the camera has no keyframes (`self.start` is None); otherwise
every channel is shifted so its first key lands on `start`, and
`__setup_camera_data` then refreshes the caches. -/
def setStartFrame (c : Camera) (s : Int) : Option Camera :=
  let (s0, c1) := startF c
  match s0 with
  | none => none
  | some s0 =>
    let c2 : Camera :=
      { c1 with channels := c1.channels.map (shiftChannel s0 s),
                kfC := c1.kfC.map (List.map (shiftChannel s0 s)) }
    some (setupData c2)

/- ## sequence.py: SequenceCamera.import_camera orchestration

Host interactions are recorded as an event trace.  The import settings
object built at the top of the function is local and side-effect free, and is
not traced; `sequence.open()` is traced as `openSeq`. -/

/-- The traced host calls of `import_camera`. -/
inductive Event where
  | openSeq
  | spawnActor
  | importFbx
  | destroyActor
  | adjustStart (s : Int)
  | addSection
  | wireSection (lo hi : Option Int)
deriving DecidableEq

/-- What the host does for one `import_camera` call: whether
`SequencerTools.import_level_sequence_fbx` reports success, the keyframe
channels bound to the camera proxy after the import, and how many camera-cut
sections of the sequence are already bound to this camera. -/
structure HostEnv where
  importOk : Bool
  importedKeys : List (List Int)
  numMatchingSections : Nat
deriving DecidableEq

/-- Python truthiness of the optional `start_frame` argument: None and 0 are
falsy. -/
def pyTruthyInt (v : Option Int) : Bool :=
  match v with
  | none => false
  | some n => n != 0

/-- SequenceCamera.import_camera.  Returns `none` when the Python call raises
(TypeError inside `set_start_frame`); otherwise the event trace and the
result, which is Python None exactly when the host import failed.  A camera
actor is spawned (and the proxy bound) only when no proxy was supplied, and
destroyed right after the import call; the keyframe offset adjustment runs
only for a truthy `start_frame` after a successful import; the camera-cut
wiring runs only when `new_section` holds, reusing the matching sections or
adding one when there are none, and ranges each over the camera's start and
end. -/
def importCamera (env : HostEnv) (proxySupplied : Bool) (startFrame : Option Int)
    (newSection : Bool) : Option (List Event × Option Camera) :=
  let pre : List Event :=
    [.openSeq] ++ (if proxySupplied then [] else [.spawnActor]) ++ [.importFbx] ++
      (if proxySupplied then [] else [.destroyActor])
  if !env.importOk then some (pre, none)
  else
    let cam0 := Camera.fresh env.importedKeys
    let step : Option (List Event × Camera) :=
      if pyTruthyInt startFrame then
        match startFrame with
        | some v =>
          match setStartFrame cam0 v with
          | some c1 => some ([.adjustStart v], c1)
          | none => none
        | none => none
      else some ([], cam0)
    match step with
    | none => none
    | some (adjEv, cam1) =>
      if newSection then
        let (lo, cam2) := startF cam1
        let (hi, cam3) := endF cam2
        let secEvs : List Event :=
          (if env.numMatchingSections = 0 then [.addSection] else []) ++
            List.replicate (max env.numMatchingSections 1) (.wireSection lo hi)
        some (pre ++ adjEv ++ secEvs, some cam3)
      else some (pre ++ adjEv, some cam1)

/- ## sequence.py: LevelSequenceNode.add_camera / add_cameras

The host behaviour is a function from (camera name, fbx path) to a `HostEnv`;
`hasExisting` tells whether the sequence already holds a spawnable camera of
that name (the `match_camera_name` search). -/

/-- CameraOrder(IntEnum): stack = 0, one_by_one = 1. -/
inductive CameraOrder where
  | stack
  | one_by_one
deriving DecidableEq

/-- LevelSequenceNode.add_camera: reuse the proxy of a same-named camera when
`match_camera_name`, import (with `new_section` left at its default True),
and raise LevelSequenceNodeError (`Except.error`) when the import returned
None.  `none` still models an uncaught TypeError. -/
def addCamera (host : String → String → HostEnv) (hasExisting : String → Bool)
    (matchName : Bool) (cpath cname : String) (startFrame : Option Int) :
    Option (Except Unit Camera) :=
  let ps := matchName && hasExisting cname
  match importCamera (host cname cpath) ps startFrame true with
  | none => none
  | some (_, none) => some (.error ())
  | some (_, some cam) => some (.ok cam)

/-- The loop of LevelSequenceNode.add_cameras.  Each element of `cameras` is
one dict, as its (key, value) pairs in insertion order; the inner loop
processes the first pair and then hits the `break`.  The accumulators carry
the `start_frame` variable, the `end` variable, the cameras imported so far
and a log of the (name, path, start_frame) triples passed to `add_camera`.
The final pair of the result records the values written to `self.start` and
`self.end` when `auto_frame_range` (the `start` variable is never
reassigned, so the original `start_frame` is written back). -/
def addCamerasGo (host : String → String → HostEnv) (hasExisting : String → Bool)
    (matchName : Bool) (order : CameraOrder) (autoFR : Bool) :
    List (List (String × String)) → Option Int → Option Int → List Camera →
    List (String × String × Option Int) →
    Option (Except Unit (List Camera × List (String × String × Option Int) ×
      Option Int))
  | [], _, endV, cams, log => some (.ok (cams, log, endV))
  | d :: rest, sf, endV, cams, log =>
    match d with
    | [] => addCamerasGo host hasExisting matchName order autoFR rest sf endV cams log
    | (cname, cpath) :: _ =>
      match addCamera host hasExisting matchName cpath cname sf with
      | none => none
      | some (.error _) => some (.error ())
      | some (.ok cam) =>
        if order = CameraOrder.one_by_one then
          match endF cam with
          | (none, _) => none
          | (some e, cam1) =>
            let sf' := some (e + 1)
            let endV' := if autoFR then some e else endV
            addCamerasGo host hasExisting matchName order autoFR rest sf' endV'
              (cams ++ [cam1]) (log ++ [(cname, cpath, sf)])
        else
          if autoFR then
            match endV with
            | none =>
              match endF cam with
              | (e, cam1) =>
                addCamerasGo host hasExisting matchName order autoFR rest sf e
                  (cams ++ [cam1]) (log ++ [(cname, cpath, sf)])
            | some e0 =>
              match endF cam with
              | (none, _) => none
              | (some e, cam1) =>
                let endV' := if e0 < e then some e else some e0
                addCamerasGo host hasExisting matchName order autoFR rest sf endV'
                  (cams ++ [cam1]) (log ++ [(cname, cpath, sf)])
          else
            addCamerasGo host hasExisting matchName order autoFR rest sf endV
              (cams ++ [cam]) (log ++ [(cname, cpath, sf)])

/-- LevelSequenceNode.add_cameras: run the loop, then, when
`auto_frame_range`, write `self.start = start` and `self.end = end` through
the playback-range setters.  The `start` variable is never reassigned, so the
original `start_frame` argument is written; `end` is still None when no
camera was imported.  Each setter computes `float(frame) / float(self.fps)`,
which raises TypeError when the written frame is None (`self.start = start`
runs first), so a None write surfaces as a Python error (`none`). -/
def addCameras (host : String → String → HostEnv) (hasExisting : String → Bool)
    (cameras : List (List (String × String))) (startFrame : Option Int)
    (matchName : Bool) (order : CameraOrder) (autoFR : Bool) :
    Option (Except Unit (List Camera × List (String × String × Option Int) ×
      Option Int)) :=
  match addCamerasGo host hasExisting matchName order autoFR cameras startFrame
      none [] [] with
  | none => none
  | some (.error e) => some (.error e)
  | some (.ok (cams, log, endV)) =>
    if autoFR then
      match startFrame, endV with
      | some _, some _ => some (.ok (cams, log, endV))
      | _, _ => none
    else some (.ok (cams, log, endV))

/- ### Concrete inputs for the camera theorems -/

/-- A host for which every import succeeds with two keyed channels. -/
def egHost : String → String → HostEnv :=
  fun _ _ => { importOk := true, importedKeys := [[1, 4, 9], [3, 7]], numMatchingSections := 0 }

/-- The docstring of the C7 counterexample: its only bullet has no
description on its own line, so the regex captures the following line as the
description while no single line matches the bullet pattern. -/
def doc7 : String := "- ``a`` (int32):  [Read] \nxyz"

/-- The NodeCache for a host class whose docstring is `doc7`. -/
def cache7 : NodeCache := NodeCache.init "N7" ⟨doc7, []⟩

/-- Split a character list at newlines, accumulating the current line
reversed. -/
def splitLinesAux : List Char → List Char → List String
  | [], acc => [String.mk acc.reverse]
  | c :: rest, acc =>
    if c = '\n' then String.mk acc.reverse :: splitLinesAux rest []
    else splitLinesAux rest (c :: acc)

/-- Splitting a docstring into its lines (str.splitlines for `\n`-separated
text, the spec side of the C7 claim). -/
def splitLinesNl (s : String) : List String := splitLinesAux s.data []

/-- Modelled from the spec: a docstring line "matching the documented bullet
pattern" — the editor-property regex finds a match within the line. -/
def lineMatchesBullet (line : String) : Bool :=
  !(findGroups editorPat line.data).isEmpty

/- ## Helper lemmas -/

/-- `__getattr__` re-enters itself whenever ordinary lookup keeps failing, so
for an item missing from the wrapper it exhausts any fuel. -/
theorem nbGetattr_missing {α : Type} (w na : String → Option α) (item : String)
    (hw : w item = none) : ∀ fuel, nbGetattr fuel w na item = .recErr := by
  intro fuel
  induction fuel with
  | zero => rfl
  | succ n ih => simp [nbGetattr, hw, ih]

/-- A key appended to a cache that missed it is found afterwards. -/
theorem alistFind_append_self {α : Type} [DecidableEq α]
    (c : List (α × Nat)) (k : α) (v : Nat) (h : alistFind c k = none) :
    alistFind (c ++ [(k, v)]) k = some v := by
  induction c with
  | nil => simp [alistFind]
  | cons p rest ih =>
    by_cases hk : p.1 = k
    · simp [alistFind, hk] at h
    · simp [alistFind, hk] at h ⊢
      exact ih h

/-- Membership in an extended singleton cache. -/
theorem mem_append_singleton {α : Type} {p : α} {c : List α} {q : α}
    (h : p ∈ c ++ [q]) : p ∈ c ∨ p = q := by
  rcases List.mem_append.1 h with h | h
  · exact Or.inl h
  · exact Or.inr (List.mem_singleton.1 h)

/-- The channel fold keeps a Some start value, and keeps it at `s` when every
non-empty channel starts at `s`. -/
theorem foldSetup_start_some (s : Int) :
    ∀ (chs : List (List Int)) (acc : List (List Int) × Option Int × Option Int),
      (∀ ch ∈ chs, ch ≠ [] → ch.headI = s) → acc.2.1 = some s →
      (chs.foldl setupStep acc).2.1 = some s := by
  intro chs
  induction chs with
  | nil => intro acc _ hacc; simpa using hacc
  | cons ch rest ih =>
    intro acc hhd hacc
    match ch with
    | [] =>
      simp only [List.foldl_cons, setupStep]
      exact ih acc (fun d hd => hhd d (List.mem_cons_of_mem _ hd)) hacc
    | k :: r =>
      have hk : k = s := by
        have := hhd (k :: r) (List.mem_cons_self _ _) (by simp)
        simpa [List.headI] using this
      simp only [List.foldl_cons]
      refine ih _ (fun d hd => hhd d (List.mem_cons_of_mem _ hd)) ?_
      rcases acc with ⟨kfs, s?, e?⟩
      simp only [setupStep] at *
      subst hk
      simp_all

/-- When the accumulated start is still None and some channel has keys, the
fold produces `some s` provided every non-empty channel starts at `s`. -/
theorem foldSetup_start_none (s : Int) :
    ∀ (chs : List (List Int)) (acc : List (List Int) × Option Int × Option Int),
      (∀ ch ∈ chs, ch ≠ [] → ch.headI = s) → acc.2.1 = none →
      (∃ ch ∈ chs, ch ≠ []) →
      (chs.foldl setupStep acc).2.1 = some s := by
  intro chs
  induction chs with
  | nil => intro acc _ _ hex; simp at hex
  | cons ch rest ih =>
    intro acc hhd hacc hex
    match ch with
    | [] =>
      simp only [List.foldl_cons, setupStep]
      refine ih acc (fun d hd => hhd d (List.mem_cons_of_mem _ hd)) hacc ?_
      rcases hex with ⟨d, hd, hdne⟩
      rcases List.mem_cons.1 hd with h | h
      · exact absurd h.symm (by simpa using hdne)
      · exact ⟨d, h, hdne⟩
    | k :: r =>
      have hk : k = s := by
        have := hhd (k :: r) (List.mem_cons_self _ _) (by simp)
        simpa [List.headI] using this
      simp only [List.foldl_cons]
      refine foldSetup_start_some s rest _
        (fun d hd => hhd d (List.mem_cons_of_mem _ hd)) ?_
      rcases acc with ⟨kfs, s?, e?⟩
      simp only [setupStep] at *
      subst hk
      simp_all

/-- With a keyed channel somewhere (or both accumulators already set), the
fold ends with Some start and Some end. -/
theorem foldSetup_isSome :
    ∀ (chs : List (List Int)) (acc : List (List Int) × Option Int × Option Int),
      (∃ ch ∈ chs, ch ≠ []) ∨ (acc.2.1.isSome ∧ acc.2.2.isSome) →
      ((chs.foldl setupStep acc).2.1).isSome ∧
        ((chs.foldl setupStep acc).2.2).isSome := by
  intro chs
  induction chs with
  | nil =>
    intro acc h
    rcases h with h | h
    · simp at h
    · simpa using h
  | cons ch rest ih =>
    intro acc h
    match ch with
    | [] =>
      simp only [List.foldl_cons, setupStep]
      refine ih acc ?_
      rcases h with ⟨d, hd, hdne⟩ | h
      · rcases List.mem_cons.1 hd with h' | h'
        · exact absurd h'.symm (by simpa using hdne)
        · exact Or.inl ⟨d, h', hdne⟩
      · exact Or.inr h
    | k :: r =>
      simp only [List.foldl_cons]
      refine ih _ (Or.inr ?_)
      rcases acc with ⟨kfs, s?, e?⟩
      cases s? <;> cases e? <;>
        simp only [setupStep] <;>
        refine ⟨?_, ?_⟩ <;>
        (try split) <;> simp

/-- setupData only rewrites the caches. -/
theorem setupData_channels (c : Camera) : (setupData c).channels = c.channels := by
  simp [setupData]

/-- A cached Some start is returned as is. -/
theorem startF_of_some (c : Camera) (v : Int) (h : c.startC = some v) :
    startF c = (some v, c) := by
  simp [startF, h]

/-- A cached Some end is returned as is. -/
theorem endF_of_some (c : Camera) (v : Int) (h : c.endC = some v) :
    endF c = (some v, c) := by
  simp [endF, h]

/-- Shifting keeps a channel non-empty. -/
theorem shiftChannel_ne_nil (s0 s : Int) (ch : List Int) (h : ch ≠ []) :
    shiftChannel s0 s ch ≠ [] := by
  simpa [shiftChannel] using h

/-- The first key of a shifted non-empty channel lands on the target frame. -/
theorem shiftChannel_headI (s0 s : Int) (ch : List Int) (h : ch ≠ []) :
    (shiftChannel s0 s ch).headI = s := by
  match ch with
  | [] => exact absurd rfl h
  | k :: r =>
    simp only [shiftChannel, List.map_cons, List.headI]
    ring

/-- Subtracting consecutive values is invariant under a uniform shift. -/
theorem zipWith_sub_map_add (a b : Int) :
    ∀ (l1 l2 : List Int),
      List.zipWith (fun x y => x - y) (l1.map fun t => t + a + b)
          (l2.map fun t => t + a + b) =
        List.zipWith (fun x y => x - y) l1 l2 := by
  intro l1
  induction l1 with
  | nil => intro l2; simp
  | cons x xs ih =>
    intro l2
    match l2 with
    | [] => simp
    | y :: ys =>
      simp only [List.map_cons, List.zipWith_cons_cons, ih]
      congr 1
      ring

/-- The successive differences of a shifted channel equal the original ones. -/
theorem shiftChannel_spacing (s0 s : Int) (ch : List Int) :
    List.zipWith (fun x y => x - y) (shiftChannel s0 s ch).tail
        (shiftChannel s0 s ch) =
      List.zipWith (fun x y => x - y) ch.tail ch := by
  match ch with
  | [] => simp [shiftChannel]
  | k :: r =>
    simp only [shiftChannel, List.map_cons, List.tail_cons]
    have hr : List.map (fun t => t + (s0 - (k :: r).headI) + (s - s0)) r =
        List.map (fun t => t + (s0 - k) + (s - s0)) r := by
      simp [List.headI]
    rw [hr]
    exact zipWith_sub_map_add (s0 - k) (s - s0) r (k :: r)

/-- The shared shape of a successful set_start_frame call: it succeeds on a
consistent camera with at least one keyframe, every channel is shifted, and
the refreshed caches put the start at the target frame and keep an end. -/
theorem setStartFrame_spec (c : Camera) (s : Int)
    (hcons : c = Camera.fresh c.channels ∨ c = setupData (Camera.fresh c.channels))
    (hk : ∃ ch ∈ c.channels, ch ≠ ([] : List Int)) :
    ∃ s0 c', setStartFrame c s = some c' ∧
      c'.channels = c.channels.map (shiftChannel s0 s) ∧
      c'.startC = some s ∧ (∃ e, c'.endC = some e) := by
  have hXch : (setupData (Camera.fresh c.channels)).channels = c.channels := by
    rw [setupData_channels]
    rfl
  have hXsome : ((setupData (Camera.fresh c.channels)).startC).isSome := by
    have := (foldSetup_isSome c.channels ([], none, none) (Or.inl hk)).1
    simpa [setupData, Camera.fresh] using this
  obtain ⟨s0, hs0⟩ := Option.isSome_iff_exists.1 hXsome
  have hstart : startF c = (some s0, setupData (Camera.fresh c.channels)) := by
    rcases hcons with hc | hc
    · have hnone : c.startC = none := by rw [hc]; rfl
      have hsd : setupData c = setupData (Camera.fresh c.channels) := by
        nth_rewrite 1 [hc]
        rfl
      simp only [startF, hnone]
      rw [hsd, hs0]
    · rw [← hc] at hs0
      rw [startF_of_some c s0 hs0]
      conv_lhs => rw [hc]
  set X := setupData (Camera.fresh c.channels) with hX
  have hsf : setStartFrame c s =
      some (setupData { X with channels := X.channels.map (shiftChannel s0 s),
                               kfC := X.kfC.map (List.map (shiftChannel s0 s)) }) := by
    rw [setStartFrame, hstart]
  set c2 : Camera :=
    { X with channels := X.channels.map (shiftChannel s0 s),
             kfC := X.kfC.map (List.map (shiftChannel s0 s)) } with hc2
  refine ⟨s0, setupData c2, hsf, ?_, ?_, ?_⟩
  · rw [setupData_channels]
    simp [hc2, hXch]
  · have hall : ∀ ch ∈ c2.channels, ch ≠ [] → ch.headI = s := by
      intro ch hch hne
      have : ch ∈ (c.channels.map (shiftChannel s0 s)) := by
        simpa [hc2, hXch] using hch
      rcases List.mem_map.1 this with ⟨d, _, hd⟩
      rcases hd.symm ▸ hne with hne'
      have hdne : d ≠ [] := by
        intro hnil
        apply hne
        rw [← hd, hnil]
        simp [shiftChannel]
      rw [← hd]
      exact shiftChannel_headI s0 s d hdne
    have hex : ∃ ch ∈ c2.channels, ch ≠ ([] : List Int) := by
      rcases hk with ⟨d, hd, hdne⟩
      refine ⟨shiftChannel s0 s d, ?_, shiftChannel_ne_nil s0 s d hdne⟩
      simp only [hc2]
      rw [hXch]
      exact List.mem_map_of_mem _ hd
    have := foldSetup_start_none s c2.channels ([], none, none) hall rfl hex
    simpa [setupData] using this
  · have hex : ∃ ch ∈ c2.channels, ch ≠ ([] : List Int) := by
      rcases hk with ⟨d, hd, hdne⟩
      refine ⟨shiftChannel s0 s d, ?_, shiftChannel_ne_nil s0 s d hdne⟩
      simp only [hc2]
      rw [hXch]
      exact List.mem_map_of_mem _ hd
    have := (foldSetup_isSome c2.channels ([], none, none) (Or.inl hex)).2
    rcases Option.isSome_iff_exists.1 (by simpa [setupData] using this) with ⟨e, he⟩
    exact ⟨e, he⟩

/-- Membership in the section-wiring event block. -/
theorem mem_secEvs {x : Event} {n m : Nat} {lo hi : Option Int} :
    (x ∈ (if n = 0 then [Event.addSection] else []) ++
        List.replicate m (Event.wireSection lo hi)) ↔
      ((n = 0 ∧ x = Event.addSection) ∨ (m ≠ 0 ∧ x = Event.wireSection lo hi)) := by
  by_cases hn : n = 0 <;> simp [hn, List.mem_replicate]

/-- The wiring block always holds a wire event. -/
theorem wire_mem_secEvs (n : Nat) (lo hi : Option Int) :
    Event.wireSection lo hi ∈ (if n = 0 then [Event.addSection] else []) ++
      List.replicate (max n 1) (Event.wireSection lo hi) := by
  refine mem_secEvs.mpr (Or.inr ⟨?_, rfl⟩)
  omega

/-- With a successful host import and at least one keyed channel,
import_camera (with section wiring) returns a camera whose end cache is
populated. -/
theorem importCamera_succeeds (env : HostEnv) (ps : Bool) (sf : Option Int)
    (hok : env.importOk = true)
    (hkeys : ∃ ch ∈ env.importedKeys, ch ≠ ([] : List Int)) :
    (match importCamera env ps sf true with
     | some (_, some cam) => ∃ e, cam.endC = some e
     | _ => False) := by
  by_cases htr : pyTruthyInt sf = true
  · match sf, htr with
    | some v, htr =>
      obtain ⟨s0, c', hsf, _, hsc, e, he⟩ :=
        setStartFrame_spec (Camera.fresh env.importedKeys) v (Or.inl rfl) hkeys
      simp [importCamera, hok, htr, hsf, startF_of_some c' v hsc,
        endF_of_some c' e he]
      exact ⟨e, he⟩
  · have hX : ((setupData (Camera.fresh env.importedKeys)).endC).isSome := by
      have := (foldSetup_isSome env.importedKeys ([], none, none) (Or.inl hkeys)).2
      simpa [setupData, Camera.fresh] using this
    obtain ⟨e, he⟩ := Option.isSome_iff_exists.1 hX
    have htr' : pyTruthyInt sf = false := by simpa using htr
    simp only [importCamera, hok, htr', startF, Bool.not_true,
      Bool.false_eq_true, if_false]
    show ∃ e1,
      ((endF (setupData (Camera.fresh env.importedKeys))).2).endC = some e1
    rw [endF_of_some _ e he]
    exact ⟨e, he⟩

/-- add_camera under a successful import: it returns the camera (no
LevelSequenceNodeError) and the camera's end cache is populated. -/
theorem addCamera_ok (host : String → String → HostEnv) (hasEx : String → Bool)
    (mn : Bool) (cpath cname : String) (sf : Option Int)
    (hok : (host cname cpath).importOk = true)
    (hkeys : ∃ ch ∈ (host cname cpath).importedKeys, ch ≠ ([] : List Int)) :
    ∃ cam e, addCamera host hasEx mn cpath cname sf = some (.ok cam) ∧
      cam.endC = some e := by
  have h := importCamera_succeeds (host cname cpath) (mn && hasEx cname) sf hok hkeys
  match heq : importCamera (host cname cpath) (mn && hasEx cname) sf true with
  | none => rw [heq] at h; simp at h
  | some (tr, none) => rw [heq] at h; simp at h
  | some (tr, some cam) =>
    rw [heq] at h
    simp only at h
    obtain ⟨e, he⟩ := h
    exact ⟨cam, e, by simp [addCamera, heq], he⟩

/-- One step of the add_cameras loop, when add_camera hands back a camera
with a populated end cache: the first pair of the dict is consumed, the
camera and a log entry are appended, and under one_by_one the next
start_frame becomes end + 1. -/
theorem addCamerasGo_cons_reduce (host : String → String → HostEnv)
    (hasEx : String → Bool) (mn : Bool) (order : CameraOrder) (autoFR : Bool)
    (cname cpath : String) (dtl : List (String × String))
    (rest : List (List (String × String))) (sf endV : Option Int)
    (accC : List Camera) (accL : List (String × String × Option Int))
    (cam : Camera) (e : Int)
    (hca : addCamera host hasEx mn cpath cname sf = some (.ok cam))
    (he : cam.endC = some e) :
    ∃ endV2, (autoFR = true → endV2.isSome = true) ∧
      addCamerasGo host hasEx mn order autoFR (((cname, cpath) :: dtl) :: rest)
          sf endV accC accL =
        addCamerasGo host hasEx mn order autoFR rest
          (if order = CameraOrder.one_by_one then some (e + 1) else sf)
          endV2 (accC ++ [cam]) (accL ++ [(cname, cpath, sf)]) := by
  by_cases hord : order = CameraOrder.one_by_one
  · refine ⟨if autoFR then some e else endV, ?_, ?_⟩
    · intro haf
      simp [haf]
    · simp [addCamerasGo, hca, hord, endF_of_some cam e he]
  · by_cases haf : autoFR
    · match endV with
      | none =>
        refine ⟨some e, by simp, ?_⟩
        simp [addCamerasGo, hca, hord, haf, endF_of_some cam e he]
      | some e0 =>
        refine ⟨if e0 < e then some e else some e0, ?_, ?_⟩
        · intro _
          split <;> simp
        · simp [addCamerasGo, hca, hord, haf, endF_of_some cam e he]
    · refine ⟨endV, fun h => absurd h haf, ?_⟩
      simp [addCamerasGo, hca, hord, haf]

/-- The add_cameras loop over well-formed camera dicts: one camera and one
log entry per (non-empty) dict, the log recording the first pair of each
dict and the start_frame passed; under one_by_one each later call's
start_frame is the previous camera's end + 1. -/
theorem addCamerasGo_spec (host : String → String → HostEnv)
    (hasEx : String → Bool) (mn : Bool) (order : CameraOrder) (autoFR : Bool)
    (hok : ∀ n p, (host n p).importOk = true)
    (hkeys : ∀ n p, ∃ ch ∈ (host n p).importedKeys, ch ≠ ([] : List Int)) :
    ∀ (cams : List (List (String × String))) (sf endV : Option Int)
      (accC : List Camera) (accL : List (String × String × Option Int)),
      (∀ d ∈ cams, d ≠ []) →
      ∃ newC newL endV',
        addCamerasGo host hasEx mn order autoFR cams sf endV accC accL =
          some (.ok (accC ++ newC, accL ++ newL, endV')) ∧
        newC.length = cams.length ∧ newL.length = cams.length ∧
        (∀ i (h1 : i < newL.length) (h2 : i < cams.length),
          (newL.get ⟨i, h1⟩).1 = ((cams.get ⟨i, h2⟩).headI).1 ∧
          (newL.get ⟨i, h1⟩).2.1 = ((cams.get ⟨i, h2⟩).headI).2) ∧
        (∀ h0 : 0 < newL.length, (newL.get ⟨0, h0⟩).2.2 = sf) ∧
        (autoFR = true → (endV.isSome = true ∨ cams ≠ []) →
          endV'.isSome = true) ∧
        (order = CameraOrder.one_by_one →
          ∀ i (h1 : i + 1 < newL.length) (h2 : i < newC.length),
            ∃ e, (newC.get ⟨i, h2⟩).endC = some e ∧
              (newL.get ⟨i + 1, h1⟩).2.2 = some (e + 1)) := by
  intro cams
  induction cams with
  | nil =>
    intro sf endV accC accL _
    refine ⟨[], [], endV, by simp [addCamerasGo], rfl, rfl, ?_, ?_, ?_, ?_⟩
    · intro i h1 h2
      simp at h1
    · intro h0
      simp at h0
    · intro _ hd
      rcases hd with hd | hd
      · exact hd
      · exact absurd rfl hd
    · intro _ i h1 h2
      simp at h1
  | cons d rest ih =>
    intro sf endV accC accL hne
    match d, hne with
    | [], hne => exact absurd rfl (hne [] (List.mem_cons_self _ _))
    | (cname, cpath) :: dtl, hne =>
      obtain ⟨cam, e, hca, he⟩ := addCamera_ok host hasEx mn cpath cname sf
        (hok cname cpath) (hkeys cname cpath)
      obtain ⟨endV2, hend2, hred⟩ := addCamerasGo_cons_reduce host hasEx mn order
        autoFR cname cpath dtl rest sf endV accC accL cam e hca he
      obtain ⟨newC', newL', endV', heq', hl1, hl2, hidx, h0, hend, hch⟩ :=
        ih (if order = CameraOrder.one_by_one then some (e + 1) else sf) endV2
          (accC ++ [cam]) (accL ++ [(cname, cpath, sf)])
          (fun d hd => hne d (List.mem_cons_of_mem _ hd))
      refine ⟨cam :: newC', (cname, cpath, sf) :: newL', endV', ?_,
        by simp [hl1], by simp [hl2], ?_, ?_,
        fun haf _ => hend haf (Or.inl (hend2 haf)), ?_⟩
      · rw [hred, heq']
        simp
      · intro i h1 h2
        match i with
        | 0 => simp [List.headI]
        | Nat.succ j =>
          have := hidx j (by simpa using h1) (by simpa using h2)
          simpa using this
      · intro h0'
        simp
      · intro hord i h1 h2
        match i with
        | 0 =>
          refine ⟨e, by simpa using he, ?_⟩
          have hlen0 : 0 < newL'.length := by simpa using h1
          have hval := h0 hlen0
          rw [if_pos hord] at hval
          simpa using hval
        | Nat.succ j =>
          have := hch hord j (by simpa using h1) (by simpa using h2)
          simpa using this

/- ## Claim theorems -/

/-- C1: against the claim that repeated reads of the cached accessors return
equal values, the second read of class_properties loses the scrape result:
for a host class yielding a descriptor, the first read returns the descriptor
list while the second returns None, because the `return` statement sits
inside the `if self._class_properties is None:` branch. -/
theorem classProperties_second_read_lost :
    (classProperties egCache).1 = some [egClassProp] ∧
    (classProperties (classProperties egCache).2).1 = none :=
  ⟨by decide, by decide⟩

/-- C2: on a camera whose tracks hold at least one keyframe (and whose caches
are fresh or as `__setup_camera_data` left them), set_start_frame(s) succeeds;
afterwards every channel that has keyframes starts at frame s, the successive
key spacings within each channel are unchanged, and the start property reads
back s. -/
theorem setStartFrame_aligns (c : Camera) (s : Int)
    (hcons : c = Camera.fresh c.channels ∨ c = setupData (Camera.fresh c.channels))
    (hk : ∃ ch ∈ c.channels, ch ≠ ([] : List Int)) :
    ∃ c', setStartFrame c s = some c' ∧
      c'.channels.length = c.channels.length ∧
      (∀ i (h : i < c.channels.length) (h' : i < c'.channels.length),
        c.channels.get ⟨i, h⟩ ≠ [] →
          (c'.channels.get ⟨i, h'⟩).headI = s ∧
          List.zipWith (fun a b => a - b) (c'.channels.get ⟨i, h'⟩).tail
              (c'.channels.get ⟨i, h'⟩) =
            List.zipWith (fun a b => a - b) (c.channels.get ⟨i, h⟩).tail
              (c.channels.get ⟨i, h⟩)) ∧
      (startF c').1 = some s := by
  obtain ⟨s0, c', hsf, hch, hsc, _⟩ := setStartFrame_spec c s hcons hk
  refine ⟨c', hsf, by rw [hch]; simp, ?_, ?_⟩
  · intro i h h' hne
    have hg : c'.channels.get ⟨i, h'⟩ = shiftChannel s0 s (c.channels.get ⟨i, h⟩) := by
      rw [List.get_of_eq hch ⟨i, h'⟩]
      simp [List.getElem_map]
    rw [hg]
    exact ⟨shiftChannel_headI s0 s _ hne, shiftChannel_spacing s0 s _⟩
  · rw [startF_of_some c' s hsc]

/-- C2 witness: a concrete two-channel camera moved to frame 10. -/
theorem setStartFrame_aligns_witness :
    ∃ c', setStartFrame (Camera.fresh [[1, 3], [2, 5]]) 10 = some c' ∧
      (startF c').1 = some 10 := by
  obtain ⟨c', hsf, _, _, hs⟩ :=
    setStartFrame_aligns (Camera.fresh [[1, 3], [2, 5]]) 10 (Or.inl rfl) (by decide)
  exact ⟨c', hsf, hs⟩

/-- C3: attribute access on a NodeBase wrapper for an item not defined on the
wrapper never terminates with a value: `getattr(self, item, NodeMissAttr)`
inside `__getattr__` re-enters `__getattr__`, so the access exhausts any
recursion budget (RecursionError) even when the wrapped node defines the
attribute, instead of delegating to it. -/
theorem nodeBase_getattr_diverges :
    ∀ fuel : Nat,
      nbLookup fuel (fun _ => none) (fun _ => some (0 : Nat)) "foo" =
        LookupResult.recErr := by
  intro fuel
  simp [nbLookup]
  exact nbGetattr_missing _ _ _ rfl fuel

/-- C4: one import_camera call performs, in order: spawn of a camera actor
(exactly when no proxy is supplied, destroyed again right after the import
call), the host FBX import, the keyframe offset adjustment (only for a truthy
start_frame after a successful import), and the camera-cut section wiring
(only when new_section holds after a successful import); a failed import
returns None having adjusted no offsets and wired no section. -/
theorem importCamera_orchestration (env : HostEnv) (ps : Bool) (sf : Option Int)
    (ns : Bool)
    (hkeys : env.importOk = true → pyTruthyInt sf = true →
      ∃ ch ∈ env.importedKeys, ch ≠ ([] : List Int)) :
    ∃ tr res, importCamera env ps sf ns = some (tr, res) ∧
      ((res.isSome = true) ↔ env.importOk = true) ∧
      ((Event.spawnActor ∈ tr ∨ Event.destroyActor ∈ tr) ↔ ps = false) ∧
      (ps = false → List.Sublist
        [Event.spawnActor, Event.importFbx, Event.destroyActor] tr) ∧
      Event.importFbx ∈ tr ∧
      (∀ v, Event.adjustStart v ∈ tr →
        env.importOk = true ∧ pyTruthyInt sf = true ∧
          List.Sublist [Event.importFbx, Event.adjustStart v] tr) ∧
      (∀ lo hi, Event.wireSection lo hi ∈ tr →
        ns = true ∧ env.importOk = true) ∧
      (ns = true → env.importOk = true →
        ∃ lo hi, Event.wireSection lo hi ∈ tr) ∧
      (∀ v lo hi, Event.adjustStart v ∈ tr → Event.wireSection lo hi ∈ tr →
        List.Sublist [Event.adjustStart v, Event.wireSection lo hi] tr) ∧
      (env.importOk = false →
        res = none ∧ (∀ v, Event.adjustStart v ∉ tr) ∧
          (∀ lo hi, Event.wireSection lo hi ∉ tr)) := by
  by_cases hok : env.importOk = true
  case neg =>
    have hok' : env.importOk = false := by simpa using hok
    cases ps
    · refine ⟨[.openSeq, .spawnActor, .importFbx, .destroyActor], none,
        by simp [importCamera, hok'], by simp [hok'], by simp, ?_, by simp,
        by simp, by simp, by simp [hok'], by simp, by simp⟩
      intro _
      exact (((List.nil_sublist _).cons₂ _).cons₂ _).cons₂ _ |>.cons _
    · exact ⟨[.openSeq, .importFbx], none, by simp [importCamera, hok'],
        by simp [hok'], by simp, by simp, by simp, by simp, by simp,
        by simp [hok'], by simp, by simp⟩
  case pos =>
    by_cases htr : pyTruthyInt sf = true
    · match sf, htr with
      | some v, htr =>
        obtain ⟨s0, c', hsf, hch, hsc, e, he⟩ :=
          setStartFrame_spec (Camera.fresh env.importedKeys) v (Or.inl rfl)
            (hkeys hok htr)
        cases hns : ns
        · cases ps
          · refine ⟨[.openSeq, .spawnActor, .importFbx, .destroyActor,
              .adjustStart v], some c',
              by simp [importCamera, hok, htr, hsf], by simp [hok], by simp,
              ?_, by simp, ?_, by simp, by simp, by simp, by simp [hok]⟩
            · intro _
              exact (((List.nil_sublist _).cons₂ _).cons₂ _).cons₂ _ |>.cons _
            · intro v' hv'
              have : v' = v := by simpa using hv'
              subst this
              exact ⟨hok, htr,
                ((((List.nil_sublist _).cons₂ _).cons _).cons₂ _).cons _ |>.cons _⟩
          · refine ⟨[.openSeq, .importFbx, .adjustStart v], some c',
              by simp [importCamera, hok, htr, hsf], by simp [hok], by simp,
              by simp, by simp, ?_, by simp, by simp, by simp, by simp [hok]⟩
            intro v' hv'
            have : v' = v := by simpa using hv'
            subst this
            exact ⟨hok, htr, (((List.nil_sublist _).cons₂ _).cons₂ _).cons _⟩
        · cases ps
          · refine ⟨[.openSeq, .spawnActor, .importFbx, .destroyActor,
              .adjustStart v] ++
                ((if env.numMatchingSections = 0 then [Event.addSection] else []) ++
                  List.replicate (max env.numMatchingSections 1)
                    (Event.wireSection (some v) (some e))), some c',
              by simp [importCamera, hok, htr, hsf, startF_of_some c' v hsc,
                endF_of_some c' e he],
              by simp [hok], by simp, ?_, by simp, ?_, ?_, ?_, ?_, by simp [hok]⟩
            · intro _
              exact (((List.nil_sublist _).cons₂ _).cons₂ _).cons₂ _ |>.cons _
            · intro v' hv'
              have : v' = v := by
                simpa [mem_secEvs] using hv'
              subst this
              refine ⟨hok, htr, ?_⟩
              exact ((((List.nil_sublist _).cons₂ _).cons _).cons₂ _).cons _ |>.cons _
            · intro lo hi _
              exact ⟨rfl, hok⟩
            · intro _ _
              refine ⟨some v, some e, ?_⟩
              exact List.mem_append_right _ (wire_mem_secEvs _ _ _)
            · intro v' lo hi hv' hw
              have hv : v' = v := by simpa [mem_secEvs] using hv'
              have hlh : lo = some v ∧ hi = some e := by
                have h1 : Event.wireSection lo hi =
                    Event.wireSection (some v) (some e) := by
                  rcases List.mem_append.1 hw with hw1 | hw2
                  · simp at hw1
                  · rcases List.mem_append.1 hw2 with hw3 | hw4
                    · revert hw3
                      split <;> simp
                    · exact List.eq_of_mem_replicate hw4
                simpa using h1
              subst hv
              rcases hlh with ⟨hlo, hhi⟩
              subst hlo; subst hhi
              exact ((((List.singleton_sublist.mpr
                (wire_mem_secEvs _ _ _)).cons₂ _).cons _).cons _).cons _ |>.cons _
          · refine ⟨[.openSeq, .importFbx, .adjustStart v] ++
                ((if env.numMatchingSections = 0 then [Event.addSection] else []) ++
                  List.replicate (max env.numMatchingSections 1)
                    (Event.wireSection (some v) (some e))), some c',
              by simp [importCamera, hok, htr, hsf, startF_of_some c' v hsc,
                endF_of_some c' e he],
              by simp [hok], by simp [mem_secEvs], by simp, by simp, ?_, ?_, ?_,
              ?_, by simp [hok]⟩
            · intro v' hv'
              have : v' = v := by simpa [mem_secEvs] using hv'
              subst this
              exact ⟨hok, htr, (((List.nil_sublist _).cons₂ _).cons₂ _).cons _⟩
            · intro lo hi _
              exact ⟨rfl, hok⟩
            · intro _ _
              refine ⟨some v, some e, ?_⟩
              exact List.mem_append_right _ (wire_mem_secEvs _ _ _)
            · intro v' lo hi hv' hw
              have hv : v' = v := by simpa [mem_secEvs] using hv'
              have hlh : lo = some v ∧ hi = some e := by
                have h1 : Event.wireSection lo hi =
                    Event.wireSection (some v) (some e) := by
                  rcases List.mem_append.1 hw with hw1 | hw2
                  · simp at hw1
                  · rcases List.mem_append.1 hw2 with hw3 | hw4
                    · revert hw3
                      split <;> simp
                    · exact List.eq_of_mem_replicate hw4
                simpa using h1
              subst hv
              rcases hlh with ⟨hlo, hhi⟩
              subst hlo; subst hhi
              exact ((List.singleton_sublist.mpr
                (wire_mem_secEvs _ _ _)).cons₂ _).cons _ |>.cons _
    · have htr' : pyTruthyInt sf = false := by simpa using htr
      cases hns : ns
      · cases ps
        · refine ⟨[.openSeq, .spawnActor, .importFbx, .destroyActor],
            some (Camera.fresh env.importedKeys),
            by simp [importCamera, hok, htr'], by simp [hok], by simp, ?_,
            by simp, by simp, by simp, by simp, by simp, by simp [hok]⟩
          intro _
          exact (((List.nil_sublist _).cons₂ _).cons₂ _).cons₂ _ |>.cons _
        · exact ⟨[.openSeq, .importFbx],
            some (Camera.fresh env.importedKeys),
            by simp [importCamera, hok, htr'], by simp [hok], by simp, by simp,
            by simp, by simp, by simp, by simp, by simp, by simp [hok]⟩
      · cases ps
        · refine ⟨[.openSeq, .spawnActor, .importFbx, .destroyActor] ++
              ((if env.numMatchingSections = 0 then [Event.addSection] else []) ++
                List.replicate (max env.numMatchingSections 1)
                  (Event.wireSection (startF (Camera.fresh env.importedKeys)).1
                    (endF (startF (Camera.fresh env.importedKeys)).2).1)),
            some (endF (startF (Camera.fresh env.importedKeys)).2).2,
            by simp [importCamera, hok, htr'], by simp [hok],
            by simp [mem_secEvs], ?_, by simp, by simp [mem_secEvs], ?_, ?_,
            by simp [mem_secEvs], by simp [hok]⟩
          · intro _
            exact (((List.nil_sublist _).cons₂ _).cons₂ _).cons₂ _ |>.cons _
          · intro lo hi _
            exact ⟨rfl, hok⟩
          · intro _ _
            refine ⟨(startF (Camera.fresh env.importedKeys)).1,
              (endF (startF (Camera.fresh env.importedKeys)).2).1, ?_⟩
            exact List.mem_append_right _ (wire_mem_secEvs _ _ _)
        · refine ⟨[.openSeq, .importFbx] ++
              ((if env.numMatchingSections = 0 then [Event.addSection] else []) ++
                List.replicate (max env.numMatchingSections 1)
                  (Event.wireSection (startF (Camera.fresh env.importedKeys)).1
                    (endF (startF (Camera.fresh env.importedKeys)).2).1)),
            some (endF (startF (Camera.fresh env.importedKeys)).2).2,
            by simp [importCamera, hok, htr'], by simp [hok],
            by simp [mem_secEvs], by simp, by simp, by simp [mem_secEvs], ?_,
            ?_, by simp [mem_secEvs], by simp [hok]⟩
          · intro lo hi _
            exact ⟨rfl, hok⟩
          · intro _ _
            refine ⟨(startF (Camera.fresh env.importedKeys)).1,
              (endF (startF (Camera.fresh env.importedKeys)).2).1, ?_⟩
            exact List.mem_append_right _ (wire_mem_secEvs _ _ _)

/-- C4 witness: a successful import with a supplied proxy, start frame 3 and
section wiring. -/
theorem importCamera_orchestration_witness :
    ∃ tr res,
      importCamera ⟨true, [[0, 5]], 0⟩ true (some 3) true = some (tr, res) ∧
        res.isSome = true := by
  obtain ⟨tr, res, heq, hiff, _⟩ :=
    importCamera_orchestration ⟨true, [[0, 5]], 0⟩ true (some 3) true (by decide)
  exact ⟨tr, res, heq, hiff.mpr rfl⟩

/-- C5: property_by_name is not a total lookup in the CLASS category: on a
fresh NodeCache whose host class yields a class property, the CLASS lookup
reads the raw `_class_property_names` field (still None) and `name in None`
raises TypeError instead of returning a descriptor or None. -/
theorem propertyByName_class_raises :
    propertyByName egCache "bar" PropertyCategory.CLASS =
      Except.error PyErr.typeError := rfl

/-- C6: the three factories memoize.  A second PropertyType call with the
same property-type key, a second NodeCache call with the same (existing)
node type, and a second NodeCacheProperty call with the same subject
identity, property name and property category each return the instance
cached by the first call, leaving cache and allocation counter untouched. -/
theorem singleton_factories_memoize :
    (∀ (cache : List (Option String × Nat)) (pt : Option String) (fresh : Nat),
      ∃ i c1 f1, ptCall cache pt fresh = (i, c1, f1) ∧
        ptCall c1 pt f1 = (i, c1, f1)) ∧
    (∀ (has : String → Bool) (cache : List (String × Nat)) (n : String)
        (fresh : Nat), has n = true →
      ∃ i c1 f1, ncCall has cache (some n) fresh = (.ok i, c1, f1) ∧
        ncCall has c1 (some n) f1 = (.ok i, c1, f1)) ∧
    (∀ (cache : List (String × Nat)) (sid : Nat) (nm : String) (cat : Nat)
        (fresh : Nat),
      ∃ i c1 f1, pspCall cache sid nm cat fresh = (i, c1, f1) ∧
        pspCall c1 sid nm cat f1 = (i, c1, f1)) := by
  refine ⟨?_, ?_, ?_⟩
  · intro cache pt fresh
    match h : alistFind cache pt with
    | some i => exact ⟨i, cache, fresh, by simp [ptCall, h], by simp [ptCall, h]⟩
    | none =>
      refine ⟨fresh, cache ++ [(pt, fresh)], fresh + 1, by simp [ptCall, h], ?_⟩
      simp [ptCall, alistFind_append_self cache pt fresh h]
  · intro has cache n fresh hn
    match h : alistFind cache n with
    | some i => exact ⟨i, cache, fresh, by simp [ncCall, hn, h], by simp [ncCall, hn, h]⟩
    | none =>
      refine ⟨fresh, cache ++ [(n, fresh)], fresh + 1, by simp [ncCall, hn, h], ?_⟩
      simp [ncCall, hn, alistFind_append_self cache n fresh h]
  · intro cache sid nm cat fresh
    match h : alistFind cache (psKey sid nm cat) with
    | some i => exact ⟨i, cache, fresh, by simp [pspCall, h], by simp [pspCall, h]⟩
    | none =>
      refine ⟨fresh, cache ++ [(psKey sid nm cat, fresh)], fresh + 1,
        by simp [pspCall, h], ?_⟩
      simp [pspCall, alistFind_append_self cache (psKey sid nm cat) fresh h]

/-- C6 witness: applying the memoization theorem at concrete inputs. -/
theorem singleton_factories_memoize_witness :
    ∃ i c1 f1, ncCall (fun _ => true) [] (some "LevelSequence") 0 = (.ok i, c1, f1) ∧
      ncCall (fun _ => true) c1 (some "LevelSequence") f1 = (.ok i, c1, f1) :=
  singleton_factories_memoize.2.1 (fun _ => true) [] "LevelSequence" 0 rfl

/-- C8: the set methods of both property kinds succeed with exactly one host
set call when the permission string contains "Write", and raise PropertyError
performing no host call otherwise; `_is_write` may be unset or already
memoized to its substring-test value. -/
theorem propSet_requires_write (p : NodeCachePropState)
    (hc : p.isWriteC = none ∨ p.isWriteC = some (pyIn "Write" p.permission)) :
    (pyIn "Write" p.permission = false →
        editorSet p = .error () ∧ classSet p = .error ()) ∧
    (pyIn "Write" p.permission = true →
        (∃ p1, editorSet p = .ok ([.setEditorProperty p.pname], p1)) ∧
        (∃ p1, classSet p = .ok ([.setAttr p.pname], p1))) := by
  constructor
  · intro hw
    rcases hc with hc | hc <;>
      simp [editorSet, classSet, isWriteGet, hc, hw]
  · intro hw
    rcases hc with hc | hc <;>
      simp [editorSet, classSet, isWriteGet, hc, hw]

/-- C8 witness: a Read-Write editor property is set through the host call. -/
theorem propSet_requires_write_witness :
    ∃ p1, editorSet ⟨"x", "Read-Write", none⟩ =
      .ok ([.setEditorProperty "x"], p1) :=
  ((propSet_requires_write ⟨"x", "Read-Write", none⟩ (Or.inl rfl)).2 (by decide)).1

/-- C9: the NodeCache factory raises NodeCacheError exactly when the node
type is None or the host module lacks the attribute; a raising call leaves
cache and allocation counter unchanged, so a cache whose entries all name
existing host classes keeps that property across any call. -/
theorem ncCall_error_iff (has : String → Bool) (cache : List (String × Nat))
    (nt : Option String) (fresh : Nat) :
    ((ncCall has cache nt fresh).1 = .error .missing ↔
      (nt = none ∨ ∃ n, nt = some n ∧ has n = false)) ∧
    ((ncCall has cache nt fresh).1 = .error .missing →
      (ncCall has cache nt fresh).2 = (cache, fresh)) ∧
    ((∀ p ∈ cache, has p.1 = true) →
      ∀ p ∈ (ncCall has cache nt fresh).2.1, has p.1 = true) := by
  match nt with
  | none =>
    refine ⟨by simp [ncCall], by simp [ncCall], ?_⟩
    intro hall p hp
    exact hall p (by simpa [ncCall] using hp)
  | some n =>
    by_cases hn : has n
    · match h : alistFind cache n with
      | some i =>
        refine ⟨by simp [ncCall, hn, h], by simp [ncCall, hn, h], ?_⟩
        intro hall p hp
        exact hall p (by simpa [ncCall, hn, h] using hp)
      | none =>
        refine ⟨by simp [ncCall, hn, h], by simp [ncCall, hn, h], ?_⟩
        intro hall p hp
        rcases mem_append_singleton (by simpa [ncCall, hn, h] using hp) with hin | hq
        · exact hall p hin
        · rw [hq]; exact hn
    · refine ⟨?_, by simp [ncCall, hn], ?_⟩
      · simp only [ncCall, hn]
        simp [hn]
      · intro hall p hp
        exact hall p (by simpa [ncCall, hn] using hp)

/-- C9 witness: a missing host attribute makes the factory raise without
touching the cache. -/
theorem ncCall_error_iff_witness :
    (ncCall (fun _ => false) [] (some "LevelSequence") 0).1 = .error .missing :=
  (ncCall_error_iff (fun _ => false) [] (some "LevelSequence") 0).1.mpr
    (Or.inr ⟨"LevelSequence", rfl, rfl⟩)

/-- C7 counterexample: a docstring whose only bullet has no description text
on its own line.  No docstring line matches the bullet pattern, yet
editor_properties holds one descriptor, whose description is the following
line captured across the newline. -/
theorem editorProperties_not_per_line_cex :
    (editorProperties cache7).1 =
      some [{ name := "a", property_type := "int32", permission := "Read",
              des := "\nxyz" }] ∧
    (splitLinesNl doc7).filter lineMatchesBullet = [] :=
  ⟨by decide, by decide⟩

/-- C7 (amended): editor_properties is computed purely from the host class
docstring, holding exactly one descriptor per leftmost non-overlapping match
of the bullet regex (a match may begin mid-line and its description may run
across line boundaries), in match order, with the fields taken from the
capture groups; with no match at all it returns None. -/
theorem editorProperties_from_matches (c : NodeCache)
    (h1 : c.editorPropsC = none)
    (h2 : c.docC = none ∨ c.docC = some c.cls.doc) :
    (editorProperties c).1 =
      (if (findGroups editorPat c.cls.doc.data).isEmpty then none
       else some ((findGroups editorPat c.cls.doc.data).map mkEditorProperty)) := by
  rcases h2 with h2 | h2 <;>
    by_cases he : (findGroups editorPat c.cls.doc.data).isEmpty <;>
      simp_all [editorProperties, docGet, h1, h2, he, List.isEmpty_iff]

/-- C7 witness: the amended description evaluated on the counterexample
docstring. -/
theorem editorProperties_from_matches_witness :
    (editorProperties cache7).1 =
      (if (findGroups editorPat cache7.cls.doc.data).isEmpty then none
       else some ((findGroups editorPat cache7.cls.doc.data).map mkEditorProperty)) :=
  editorProperties_from_matches cache7 rfl (Or.inl rfl)

/-- C10 counterexample: an empty dict in the cameras list imports no camera
at all, so "exactly one camera per dict" fails on the one-dict call: without
auto_frame_range the call returns normally with zero cameras, and with
auto_frame_range it raises TypeError from `self.end = None` instead of
importing anything. -/
theorem addCameras_empty_dict_cex :
    (∃ cams log endV,
      addCameras egHost (fun _ => false) [[]] (some 5) true
          CameraOrder.one_by_one false = some (.ok (cams, log, endV)) ∧
        cams.length ≠ ([([] : List (String × String))]).length) ∧
    addCameras egHost (fun _ => false) [[]] (some 5) true
        CameraOrder.one_by_one true = none :=
  ⟨⟨[], [], none, rfl, by decide⟩, rfl⟩

/-- C10 (amended): when every import succeeds (and, under auto_frame_range, a
start frame is supplied and the cameras list is non-empty, so the final
playback-range writes do not raise TypeError on a None frame), add_cameras
imports exactly one camera per non-empty dict (an empty dict contributes
none): only the first (name, path) pair of each dict is passed to add_camera
and any further pairs are silently ignored, the first call receives the given
start frame, and under one_by_one each later call's requested start frame is
the previous camera's end frame plus one. -/
theorem addCameras_first_pairs (host : String → String → HostEnv)
    (hasEx : String → Bool) (cameras : List (List (String × String)))
    (sf : Option Int) (mn : Bool) (order : CameraOrder) (autoFR : Bool)
    (hok : ∀ n p, (host n p).importOk = true)
    (hkeys : ∀ n p, ∃ ch ∈ (host n p).importedKeys, ch ≠ ([] : List Int))
    (hne : ∀ d ∈ cameras, d ≠ [])
    (hfr : autoFR = true → sf.isSome = true ∧ cameras ≠ []) :
    ∃ cams log endV,
      addCameras host hasEx cameras sf mn order autoFR =
        some (.ok (cams, log, endV)) ∧
      cams.length = cameras.length ∧ log.length = cameras.length ∧
      (∀ i (h1 : i < log.length) (h2 : i < cameras.length),
        (log.get ⟨i, h1⟩).1 = ((cameras.get ⟨i, h2⟩).headI).1 ∧
        (log.get ⟨i, h1⟩).2.1 = ((cameras.get ⟨i, h2⟩).headI).2) ∧
      (∀ h0 : 0 < log.length, (log.get ⟨0, h0⟩).2.2 = sf) ∧
      (order = CameraOrder.one_by_one →
        ∀ i (h1 : i + 1 < log.length) (h2 : i < cams.length),
          ∃ e, (cams.get ⟨i, h2⟩).endC = some e ∧
            (log.get ⟨i + 1, h1⟩).2.2 = some (e + 1)) := by
  obtain ⟨newC, newL, endV, heq, hl1, hl2, hidx, h0, hend, hch⟩ :=
    addCamerasGo_spec host hasEx mn order autoFR hok hkeys cameras sf none [] []
      hne
  refine ⟨newC, newL, endV, ?_, hl1, hl2, hidx, h0, hch⟩
  simp only [List.nil_append] at heq
  by_cases haf : autoFR = true
  · obtain ⟨hsf, hcam⟩ := hfr haf
    obtain ⟨s, hs⟩ := Option.isSome_iff_exists.1 hsf
    obtain ⟨e, hev⟩ :=
      Option.isSome_iff_exists.1 (hend haf (Or.inr hcam))
    rw [addCameras, heq, haf, hs, hev]
    simp
  · have haf' : autoFR = false := by simpa using haf
    rw [addCameras, heq, haf']
    simp

/-- C10 witness: two single-pair dicts imported one_by_one from frame 1001
with auto frame range. -/
theorem addCameras_first_pairs_witness :
    ∃ cams log endV,
      addCameras egHost (fun _ => false) [[("a", "p1")], [("b", "p2")]]
          (some 1001) true CameraOrder.one_by_one true =
        some (.ok (cams, log, endV)) ∧
      cams.length = 2 ∧ log.length = 2 := by
  obtain ⟨cams, log, endV, heq, hl1, hl2, _⟩ :=
    addCameras_first_pairs egHost (fun _ => false) [[("a", "p1")], [("b", "p2")]]
      (some 1001) true CameraOrder.one_by_one true (fun _ _ => rfl)
      (fun _ _ => ⟨[1, 4, 9], by simp [egHost], by simp⟩) (by decide) (by decide)
  exact ⟨cams, log, endV, heq, by simp [hl1], by simp [hl2]⟩

end PySequencer
